import Mathlib

/-!
Verification of the Bayesian linear regression core of this repository.

The development shallowly embeds the two estimator variants found in
`src/mlpack/methods/bayesian_linear_regression/bayesian_linear_regression.cpp`
(`BayesianLinearRegression`, prefix `blr` below) and
`src/mlpack/methods/bayesian_ridge/bayesian_ridge.cpp`
(`BayesianRidge`, prefix `br` below).

Modelling conventions:
* Machine doubles are modelled by exact rationals `ℚ`.  Division is Lean's
  total division, so `x / 0 = 0`; where the C++ code would produce `inf`/`nan`
  from a zero divisor the model produces `0`, and every theorem touching such a
  point records the fact explicitly.
* Feature matrices are `Matrix (Fin p) (Fin n) ℚ` in the source's column
  orientation (p features = rows, n samples = columns).
* External linear-algebra collaborators (the symmetric eigensolver `eig_sym`,
  the general inverse `inv`, the SPD inverse `inv_sympd`, and `sqrt`) are not
  part of the sources; their outputs are passed in as parameters, and theorems
  that depend on their contracts state those contracts as hypotheses.
* `Log::Fatal` aborts the call; a `Train` that reaches it is modelled as
  returning `none` together with the object state already written at that
  point (the C++ object retains exactly those mutations).
-/

namespace MlpackBLR

open Matrix BigOperators

/-- Arithmetic mean of a vector, as Armadillo's `mean`. -/
def vecMean {n : ℕ} (v : Fin n → ℚ) : ℚ := (∑ j, v j) / n

/-- Population variance (`var(v, 1)` in Armadillo: the `1/n` normalizer). -/
def vecVarPop {n : ℕ} (v : Fin n → ℚ) : ℚ :=
  (∑ j, (v j - vecMean v) ^ 2) / n

/-- Sample variance (`var(v)` = `var(v, 0)` in Armadillo: the `1/(n-1)`
normalizer). -/
def vecVarSample {n : ℕ} (v : Fin n → ℚ) : ℚ :=
  (∑ j, (v j - vecMean v) ^ 2) / ((n : ℚ) - 1)

/-- Row-wise mean across samples, as Armadillo's `mean(data, 1)`. -/
def rowMean {p n : ℕ} (data : Matrix (Fin p) (Fin n) ℚ) : Fin p → ℚ :=
  fun i => vecMean (fun j => data i j)

/-- Row-wise sample variance, the radicand of Armadillo's
`stddev(data, 0, 1)` (`norm_type = 0`, i.e. the `1/(n-1)` normalizer). -/
def rowVarSample {p n : ℕ} (data : Matrix (Fin p) (Fin n) ℚ) : Fin p → ℚ :=
  fun i => vecVarSample (fun j => data i j)

/-- Row-wise standard deviation `stddev(data, 0, 1)`; `sq` is the external
square-root primitive. -/
def rowStddev {p n : ℕ} (sq : ℚ → ℚ) (data : Matrix (Fin p) (Fin n) ℚ) :
    Fin p → ℚ :=
  fun i => sq (rowVarSample data i)

/-- Output record of `BayesianLinearRegression::CenterScaleData` /
`BayesianRidge::CenterNormalize` (the two bodies are identical): the processed
data and the preprocessing parameters. -/
structure Preprocessed (p n : ℕ) where
  phi : Matrix (Fin p) (Fin n) ℚ
  t : Fin n → ℚ
  dataOffset : Fin p → ℚ
  dataScale : Fin p → ℚ
  responsesOffset : ℚ

/-- `BayesianLinearRegression::CenterScaleData` (lines 126-159), identical in
effect to `BayesianRidge::CenterNormalize` (lines 175-207).  Offsets start
neutral; centering sets them to row means; scaling sets the scales to the
row sample standard deviations; then the data is centered and divided by the
scales column-wise, unconditionally (there is no zero-scale check in either
source function). -/
def centerScaleData {p n : ℕ} (sq : ℚ → ℚ) (data : Matrix (Fin p) (Fin n) ℚ)
    (responses : Fin n → ℚ) (centerData scaleData : Bool) : Preprocessed p n :=
  let dataOffset : Fin p → ℚ := if centerData then rowMean data else fun _ => 0
  let responsesOffset : ℚ := if centerData then vecMean responses else 0
  let dataScale : Fin p → ℚ :=
    if scaleData then rowStddev sq data else fun _ => 1
  { phi := fun i j => (data i j - dataOffset i) / dataScale i
    t := fun j => responses j - responsesOffset
    dataOffset := dataOffset
    dataScale := dataScale
    responsesOffset := responsesOffset }

/-- Output of the external symmetric eigensolver `arma::eig_sym`:
a success flag, the eigenvalues (ascending for the real solver) and the
matrix of eigenvectors. -/
structure EigSym (p : ℕ) where
  success : Bool
  eigVal : Fin p → ℚ
  eigVec : Matrix (Fin p) (Fin p) ℚ

/-- The hyperparameter state threaded through the evidence-maximization loop
of `BayesianLinearRegression::Train`. -/
structure IterState (p : ℕ) where
  alpha : ℚ
  beta : ℚ
  gamma : ℚ
  omega : Fin p → ℚ

/-- The quantities `Train` computes once before its loop (lines 34-57):
eigendecomposition output, its inverse (an external-collaborator output),
and the preprocessed data. -/
structure SpectralCache (p n : ℕ) where
  eigVal : Fin p → ℚ
  eigVec : Matrix (Fin p) (Fin p) ℚ
  eigVecInv : Matrix (Fin p) (Fin p) ℚ
  phi : Matrix (Fin p) (Fin n) ℚ
  t : Fin n → ℚ

/-- `eigVecInvPhitT = eigVecInv * phi * t.t()` (line 57). -/
def eigVecInvPhitT {p n : ℕ} (c : SpectralCache p n) : Fin p → ℚ :=
  (c.eigVecInv * c.phi).mulVec c.t

/-- One iteration of the `while` loop of `BayesianLinearRegression::Train`
(lines 67-88), in source order: `omega` from the pre-update `alpha`, `beta`;
then `gamma`; then `alpha`; then `beta`.  Every division is performed
unconditionally, exactly as in the source. -/
def trainStep {p n : ℕ} (c : SpectralCache p n) (s : IterState p) :
    IterState p :=
  let omega : Fin p → ℚ :=
    (c.eigVec *
      Matrix.diagonal (fun i => 1 / (c.eigVal i + s.alpha / s.beta))).mulVec
      (eigVecInvPhitT c)
  let gamma : ℚ := ∑ i, c.eigVal i / (s.alpha / s.beta + c.eigVal i)
  let alpha : ℚ := gamma / Matrix.dotProduct omega omega
  let temp : Fin n → ℚ := fun j => c.t j - Matrix.vecMul omega c.phi j
  let beta : ℚ := ((n : ℚ) - gamma) / Matrix.dotProduct temp temp
  { alpha := alpha, beta := beta, gamma := gamma, omega := omega }

/-- The stopping criterion of the loop (lines 69-70, 84-86):
`crit = |deltaAlpha / alpha + deltaBeta / beta|` where the deltas are the
differences between the post- and pre-iteration values and the denominators
are the post-iteration values. -/
def critOf {p : ℕ} (old new : IterState p) : ℚ :=
  |(new.alpha - old.alpha) / new.alpha + (new.beta - old.beta) / new.beta|

/-- The `while ((crit > tol) && (i < nIterMax))` loop (lines 67-88).  `fuel`
is the remaining iteration budget `nIterMax - i`; `crit` is the running
criterion, initialized to `1.0` before the loop. -/
def trainLoop {p n : ℕ} (c : SpectralCache p n) (tol : ℚ) :
    ℕ → ℚ → IterState p → IterState p
  | 0, _, s => s
  | fuel + 1, crit, s =>
    if crit > tol then
      let s2 := trainStep c s
      trainLoop c tol fuel (critOf s s2) s2
    else s

/-- The initial prior precision `alpha = 1e-6` (line 61 / line 65). -/
def alphaInit : ℚ := 1 / 1000000

/-- `BayesianLinearRegression::Train` line 62:
`beta = 1 / (var(t, 1) * 0.1)` — the population (`1/n`) variance. -/
def blrBetaInit {n : ℕ} (t : Fin n → ℚ) : ℚ :=
  1 / (vecVarPop t * (1 / 10))

/-- `BayesianRidge::Train` line 66: `beta = 1 / (var(t) * 0.1)` — Armadillo's
default `var` uses the sample (`1/(n-1)`) normalizer. -/
def brBetaInit {n : ℕ} (t : Fin n → ℚ) : ℚ :=
  1 / (vecVarSample t * (1 / 10))

/-- The `BayesianLinearRegression` estimator object: configuration plus the
member state written by `Train`. -/
structure BLREstimator (p : ℕ) where
  centerData : Bool
  scaleData : Bool
  nIterMax : ℕ
  tol : ℚ
  dataOffset : Fin p → ℚ
  dataScale : Fin p → ℚ
  responsesOffset : ℚ
  alpha : ℚ
  beta : ℚ
  gamma : ℚ
  omega : Fin p → ℚ
  matCovariance : Matrix (Fin p) (Fin p) ℚ

/-- Modelled from the spec: the accessor `Variance()` is declared in the
estimator headers, which are not among the sources here; per the spec it
returns the noise variance `1/beta`. -/
def blrVariance {p : ℕ} (est : BLREstimator p) : ℚ := 1 / est.beta

/-- `BayesianLinearRegression::Predict` (point form, lines 97-104):
center/scale the query columns, apply `omega`, add the response offset. -/
def blrPredict {p m : ℕ} (est : BLREstimator p)
    (points : Matrix (Fin p) (Fin m) ℚ) : Fin m → ℚ :=
  let matX : Matrix (Fin p) (Fin m) ℚ :=
    fun i k => (points i k - est.dataOffset i) / est.dataScale i
  fun j => Matrix.vecMul est.omega matX j + est.responsesOffset

/-- `BayesianLinearRegression::Predict` with uncertainties (lines 106-116):
`std = sqrt(Variance() + sum(matX % (matCovariance * matX), 0))`. -/
def blrPredictStd {p m : ℕ} (sq : ℚ → ℚ) (est : BLREstimator p)
    (points : Matrix (Fin p) (Fin m) ℚ) : (Fin m → ℚ) × (Fin m → ℚ) :=
  let matX : Matrix (Fin p) (Fin m) ℚ :=
    fun i k => (points i k - est.dataOffset i) / est.dataScale i
  (fun j => Matrix.vecMul est.omega matX j + est.responsesOffset,
   fun j => sq (blrVariance est + ∑ i, matX i j * (est.matCovariance * matX) i j))

/-- `BayesianLinearRegression::RMSE` (lines 118-124):
`sqrt(mean(square(responses - predictions)))`. -/
def blrRmse {p n : ℕ} (sq : ℚ → ℚ) (est : BLREstimator p)
    (data : Matrix (Fin p) (Fin n) ℚ) (responses : Fin n → ℚ) : ℚ :=
  sq (vecMean (fun j => (responses j - blrPredict est data j) ^ 2))

/-- `BayesianLinearRegression::Train` (lines 29-95).  `eig` is the external
eigensolver output for `symmatu(phi * phi.t())` and `eigVecInv` the external
inverse of `eig.eigVec`.  The offsets are written by `CenterScaleData` before
the eigensolver is consulted; if the eigensolver failed, `Log::Fatal` aborts
the call there (`none`), with those writes retained.  Otherwise the loop runs
from `alpha = 1e-6`, `beta = 1/(var(t,1)*0.1)`, the posterior covariance is
assembled, and the training RMSE is returned. -/
def blrTrain {p n : ℕ} (sq : ℚ → ℚ) (est : BLREstimator p)
    (data : Matrix (Fin p) (Fin n) ℚ) (responses : Fin n → ℚ)
    (eig : EigSym p) (eigVecInv : Matrix (Fin p) (Fin p) ℚ) :
    BLREstimator p × Option ℚ :=
  let pre := centerScaleData sq data responses est.centerData est.scaleData
  let est1 := { est with
    dataOffset := pre.dataOffset
    dataScale := pre.dataScale
    responsesOffset := pre.responsesOffset }
  if eig.success = false then
    (est1, none)
  else
    let c : SpectralCache p n :=
      { eigVal := eig.eigVal, eigVec := eig.eigVec, eigVecInv := eigVecInv,
        phi := pre.phi, t := pre.t }
    let s0 : IterState p :=
      { alpha := alphaInit, beta := blrBetaInit pre.t,
        gamma := est.gamma, omega := est.omega }
    let s1 := trainLoop c est1.tol est1.nIterMax 1 s0
    let cov := eig.eigVec *
      Matrix.diagonal (fun i => 1 / (s1.beta * eig.eigVal i + s1.alpha)) *
      eigVecInv
    let est2 := { est1 with
      alpha := s1.alpha, beta := s1.beta, gamma := s1.gamma,
      omega := s1.omega, matCovariance := cov }
    (est2, some (blrRmse sq est2 data responses))

/-- The per-iteration posterior mean of `BayesianLinearRegression::Train`
(line 73): `omega = eigVec * diagmat(1 / (eigVal + alpha / beta)) *
(eigVecInv * phi * t.t())`, with `b = phi * t.t()` kept abstract. -/
def eigWeightMean {p : ℕ} (eigVec eigVecInv : Matrix (Fin p) (Fin p) ℚ)
    (eigVal : Fin p → ℚ) (alpha beta : ℚ) (b : Fin p → ℚ) : Fin p → ℚ :=
  (eigVec *
    Matrix.diagonal (fun i => 1 / (eigVal i + alpha / beta))).mulVec
    (eigVecInv.mulVec b)

/-- The per-iteration posterior mean of `BayesianRidge::Train` (lines 86-87):
`omega = (matCovariance * vecphitT) * beta` where
`matCovariance = inv_sympd(matA + phiphiT * beta)` is supplied by the
external SPD-inverse primitive. -/
def directWeightMean {p : ℕ} (matCovariance : Matrix (Fin p) (Fin p) ℚ)
    (beta : ℚ) (b : Fin p → ℚ) : Fin p → ℚ :=
  fun i => matCovariance.mulVec b i * beta

/-- The `BayesianRidge` estimator object: configuration plus the member state
written by `Train`. -/
structure BREstimator (p : ℕ) where
  fitIntercept : Bool
  normalize : Bool
  dataOffset : Fin p → ℚ
  dataScale : Fin p → ℚ
  responsesOffset : ℚ
  alpha : ℚ
  beta : ℚ
  gamma : ℚ
  omega : Fin p → ℚ
  matCovariance : Matrix (Fin p) (Fin p) ℚ

/-- Modelled from the spec: the accessor `Variance()` of `BayesianRidge` is
declared in its header, which is not among the sources here; per the spec it
returns the noise variance `1/beta`. -/
def brVariance {p : ℕ} (est : BREstimator p) : ℚ := 1 / est.beta

/-- `BayesianRidge::Predict` (matrix form, lines 112-121). -/
def brPredict {p m : ℕ} (est : BREstimator p)
    (points : Matrix (Fin p) (Fin m) ℚ) : Fin m → ℚ :=
  let matX : Matrix (Fin p) (Fin m) ℚ :=
    fun i k => (points i k - est.dataOffset i) / est.dataScale i
  fun j => Matrix.vecMul est.omega matX j + est.responsesOffset

/-- `BayesianRidge::Predict` with uncertainties (lines 145-165): per query
column `x`, `std = sqrt(Variance() + dot(x.t() * matCovariance, x))`. -/
def brPredictStd {p m : ℕ} (sq : ℚ → ℚ) (est : BREstimator p)
    (points : Matrix (Fin p) (Fin m) ℚ) : (Fin m → ℚ) × (Fin m → ℚ) :=
  let matX : Matrix (Fin p) (Fin m) ℚ :=
    fun i k => (points i k - est.dataOffset i) / est.dataScale i
  (fun j => Matrix.vecMul est.omega matX j + est.responsesOffset,
   fun j => sq (brVariance est +
     Matrix.dotProduct
       (Matrix.vecMul (fun i => matX i j) est.matCovariance)
       (fun i => matX i j)))

/-- `BayesianRidge::Rmse` (lines 167-173). -/
def brRmse {p n : ℕ} (sq : ℚ → ℚ) (est : BREstimator p)
    (data : Matrix (Fin p) (Fin n) ℚ) (responses : Fin n → ℚ) : ℚ :=
  sq (vecMean (fun j => (responses j - brPredict est data j) ^ 2))

/-- The loop state of `BayesianRidge::Train`; unlike the other variant, the
posterior covariance is recomputed inside the loop. -/
structure BRIterState (p : ℕ) where
  alpha : ℚ
  beta : ℚ
  gamma : ℚ
  omega : Fin p → ℚ
  matCovariance : Matrix (Fin p) (Fin p) ℚ

/-- The loop-invariant context of `BayesianRidge::Train`: the external SPD
inverse primitive `inv_sympd` and the quantities computed before the loop
(lines 49-52). -/
structure BRCache (p n : ℕ) where
  sympdInv : Matrix (Fin p) (Fin p) ℚ → Matrix (Fin p) (Fin p) ℚ
  phi : Matrix (Fin p) (Fin n) ℚ
  t : Fin n → ℚ
  vecphitT : Fin p → ℚ
  eigval : Fin p → ℚ

/-- One iteration of the `while` loop of `BayesianRidge::Train`
(lines 75-107).  `matA` is the identity with its diagonal overwritten by
`alpha` each iteration, i.e. `diagonal alpha`; `phiphiT * beta` is the
element-wise scalar product `beta • phiphiT`. -/
def brTrainStep {p n : ℕ} (c : BRCache p n) (s : BRIterState p) :
    BRIterState p :=
  let phiphiT := c.phi * c.phi.transpose
  let matCovariance :=
    c.sympdInv (Matrix.diagonal (fun _ => s.alpha) + s.beta • phiphiT)
  let omega : Fin p → ℚ := fun i => matCovariance.mulVec c.vecphitT i * s.beta
  let eigvali : Fin p → ℚ := fun i => c.eigval i * s.beta
  let gamma : ℚ := ∑ i, eigvali i / (s.alpha + eigvali i)
  let alpha : ℚ := gamma / Matrix.dotProduct omega omega
  let temp : Fin n → ℚ := fun j => c.t j - Matrix.vecMul omega c.phi j
  let beta : ℚ := ((n : ℚ) - gamma) / Matrix.dotProduct temp temp
  { alpha := alpha, beta := beta, gamma := gamma, omega := omega,
    matCovariance := matCovariance }

/-- The stopping criterion of the `BayesianRidge` loop, identical in form to
`critOf`. -/
def brCritOf {p : ℕ} (old new : BRIterState p) : ℚ :=
  |(new.alpha - old.alpha) / new.alpha + (new.beta - old.beta) / new.beta|

/-- The `while ((crit > tol) && (i < nIterMax))` loop of
`BayesianRidge::Train` (lines 75-107). -/
def brTrainLoop {p n : ℕ} (c : BRCache p n) (tol : ℚ) :
    ℕ → ℚ → BRIterState p → BRIterState p
  | 0, _, s => s
  | fuel + 1, crit, s =>
    if crit > tol then
      let s2 := brTrainStep c s
      brTrainLoop c tol fuel (brCritOf s s2) s2
    else s

/-- `BayesianRidge::Train` (lines 26-110), stated for `p + 1` features so the
singular-matrix test `eigval[0] == 0` on line 55 is well formed.
`CenterNormalize` writes the offsets first; if the smallest eigenvalue
reported by the (external) eigensolver is exactly zero, the function warns
and returns the sentinel `-1` with the posterior state untouched.  Otherwise
the loop runs with the hardcoded `tol = 1e-3` and `nIterMax = 50` from
`alpha = 1e-6` and `beta = 1/(var(t)*0.1)`, and the training RMSE is
returned. -/
def brTrain {p n : ℕ} (sq : ℚ → ℚ)
    (sympdInv : Matrix (Fin (p + 1)) (Fin (p + 1)) ℚ →
      Matrix (Fin (p + 1)) (Fin (p + 1)) ℚ)
    (est : BREstimator (p + 1)) (data : Matrix (Fin (p + 1)) (Fin n) ℚ)
    (responses : Fin n → ℚ) (eig : EigSym (p + 1)) :
    BREstimator (p + 1) × ℚ :=
  let pre := centerScaleData sq data responses est.fitIntercept est.normalize
  let est1 := { est with
    dataOffset := pre.dataOffset
    dataScale := pre.dataScale
    responsesOffset := pre.responsesOffset }
  if eig.eigVal 0 = 0 then
    (est1, -1)
  else
    let c : BRCache (p + 1) n :=
      { sympdInv := sympdInv, phi := pre.phi, t := pre.t,
        vecphitT := pre.phi.mulVec pre.t, eigval := eig.eigVal }
    let s0 : BRIterState (p + 1) :=
      { alpha := alphaInit, beta := brBetaInit pre.t,
        gamma := est.gamma, omega := est.omega,
        matCovariance := est.matCovariance }
    let s1 := brTrainLoop c (1 / 1000) 50 1 s0
    let est2 := { est1 with
      alpha := s1.alpha, beta := s1.beta, gamma := s1.gamma,
      omega := s1.omega, matCovariance := s1.matCovariance }
    (est2, brRmse sq est2 data responses)

/-- The untrained `BayesianRidge` state left in a moved-from object:
both configuration flags `false`, offsets and fitted state zeroed
(`arma::...::reset()` empties a vector; the emptied vectors and matrix are
modelled as zero). -/
def brCleared (p : ℕ) : BREstimator p :=
  { fitIntercept := false, normalize := false,
    dataOffset := fun _ => 0, dataScale := fun _ => 0,
    responsesOffset := 0, alpha := 0, beta := 0, gamma := 0,
    omega := fun _ => 0, matCovariance := 0 }

/-- `BayesianRidge::BayesianRidge(BayesianRidge&&)` (lines 225-251): the new
object takes every field of `other`; then — the `this != &other` guard is
vacuously true for a constructor — every field of `other` is cleared,
including both configuration flags, which are set to `false`. -/
def brMoveCtor {p : ℕ} (other : BREstimator p) :
    BREstimator p × BREstimator p :=
  ({ fitIntercept := other.fitIntercept, normalize := other.normalize,
     dataOffset := other.dataOffset, dataScale := other.dataScale,
     responsesOffset := other.responsesOffset, alpha := other.alpha,
     beta := other.beta, gamma := other.gamma, omega := other.omega,
     matCovariance := other.matCovariance },
   { fitIntercept := false, normalize := false,
     dataOffset := fun _ => 0, dataScale := fun _ => 0,
     responsesOffset := 0, alpha := 0, beta := 0, gamma := 0,
     omega := fun _ => 0, matCovariance := 0 })

/-- `BayesianRidge::operator=(BayesianRidge&&)` (lines 271-299) for distinct
objects (the `this != &other` branch; a self-move is a no-op): `a` receives
every field of `other`, and every field of `other` is then cleared, the
configuration flags included. -/
def brMoveAssign {p : ℕ} (_a other : BREstimator p) :
    BREstimator p × BREstimator p :=
  ({ fitIntercept := other.fitIntercept, normalize := other.normalize,
     dataOffset := other.dataOffset, dataScale := other.dataScale,
     responsesOffset := other.responsesOffset, alpha := other.alpha,
     beta := other.beta, gamma := other.gamma, omega := other.omega,
     matCovariance := other.matCovariance },
   { fitIntercept := false, normalize := false,
     dataOffset := fun _ => 0, dataScale := fun _ => 0,
     responsesOffset := 0, alpha := 0, beta := 0, gamma := 0,
     omega := fun _ => 0, matCovariance := 0 })

/-! ### Concrete fixtures used by witnesses and counterexamples -/

/-- A trivial one-feature, one-sample spectral cache. -/
def fixC1Cache : SpectralCache 1 1 :=
  { eigVal := ![1], eigVec := !![1], eigVecInv := !![1], phi := !![1],
    t := ![1] }

/-- A loop state with unit hyperparameters. -/
def fixC1State : IterState 1 :=
  { alpha := 1, beta := 1, gamma := 0, omega := fun _ => 0 }

/-- A one-feature data set whose single feature is constant (`3, 3`), hence
has zero standard deviation. -/
def fixC3Data : Matrix (Fin 1) (Fin 2) ℚ := !![3, 3]

/-- An estimator configured with `scaleData = true`. -/
def fixC3Est : BLREstimator 1 :=
  { centerData := false, scaleData := true, nIterMax := 1, tol := 1 / 1000,
    dataOffset := fun _ => 0, dataScale := fun _ => 1, responsesOffset := 0,
    alpha := 0, beta := 0, gamma := 0, omega := fun _ => 0,
    matCovariance := 0 }

/-- A successful eigensolver output for the 1x1 zero Gram matrix. -/
def fixC3Eig : EigSym 1 :=
  { success := true, eigVal := ![0], eigVec := !![1] }

/-- An estimator carrying a previous fit (offset 5, `alpha = 7`, ...)
and configured to center. -/
def fixC4Est : BLREstimator 1 :=
  { centerData := true, scaleData := false, nIterMax := 50, tol := 1 / 1000,
    dataOffset := fun _ => 5, dataScale := fun _ => 1, responsesOffset := 5,
    alpha := 7, beta := 9, gamma := 1, omega := fun _ => 2,
    matCovariance := 0 }

/-- A failed eigensolver output. -/
def fixC4Eig : EigSym 1 :=
  { success := false, eigVal := ![0], eigVec := !![1] }

/-- A cache for one feature and three samples with the target orthogonal to
the feature row: `phi * t.t() = 1*1 + 0*0 + (-1)*1 = 0`, so the computed
weight mean is the zero vector. -/
def fixC5Cache : SpectralCache 1 3 :=
  { eigVal := ![2], eigVec := !![1], eigVecInv := !![1], phi := !![1, 0, -1],
    t := ![1, 0, 1] }

/-- The loop state after initialization on `fixC5Cache`'s data:
`alpha = 1e-6`, `beta = 1/(var(t,1)*0.1) = 45`. -/
def fixC5State : IterState 1 :=
  { alpha := 1 / 1000000, beta := 45, gamma := 0, omega := fun _ => 0 }

/-- A colinear two-feature fixture: the second feature row is identically
zero, so the rows are linearly dependent and the Gram matrix is singular. -/
def fixC8Data : Matrix (Fin 2) (Fin 2) ℚ := !![3, 4; 0, 0]

/-- A `BayesianRidge` estimator carrying a previous fit. -/
def fixC8Est : BREstimator 2 :=
  { fitIntercept := false, normalize := false, dataOffset := fun _ => 0,
    dataScale := fun _ => 1, responsesOffset := 0, alpha := 7, beta := 9,
    gamma := 1, omega := fun _ => 2, matCovariance := 0 }

/-- The exact eigendecomposition of `fixC8Data * fixC8Data.transpose =
!![25, 0; 0, 0]`: ascending eigenvalues `0, 25` with orthonormal
eigenvectors. -/
def fixC8Eig : EigSym 2 :=
  { success := true, eigVal := ![0, 25], eigVec := !![0, 1; 1, 0] }

/-- An untrained estimator with both flags off and `nIterMax = 1`. -/
def fixC9Est : BLREstimator 1 :=
  { centerData := false, scaleData := false, nIterMax := 1, tol := 1 / 1000,
    dataOffset := fun _ => 0, dataScale := fun _ => 1, responsesOffset := 0,
    alpha := 0, beta := 0, gamma := 0, omega := fun _ => 0,
    matCovariance := 0 }

/-- The all-zero one-feature data set; its Gram matrix is `!![0]` with the
exact eigendecomposition below. -/
def fixC9Data : Matrix (Fin 1) (Fin 2) ℚ := !![0, 0]

/-- A successful eigensolver output for the 1x1 zero Gram matrix. -/
def fixC9Eig : EigSym 1 :=
  { success := true, eigVal := ![0], eigVec := !![1] }

/-- A nondegenerate cache: one feature, two samples, `phi = (1, -1)`,
`t = (1, -1)`, Gram matrix `!![2]` with trivial eigendecomposition. -/
def fixC9GoodCache : SpectralCache 1 2 :=
  { eigVal := ![2], eigVec := !![1], eigVecInv := !![1], phi := !![1, -1],
    t := ![1, -1] }

/-- A fully populated `BayesianRidge` estimator with both configuration
flags set. -/
def fixC10Est : BREstimator 1 :=
  { fitIntercept := true, normalize := true, dataOffset := fun _ => 1,
    dataScale := fun _ => 2, responsesOffset := 3, alpha := 4, beta := 5,
    gamma := 6, omega := fun _ => 7, matCovariance := 0 }

/-! ### Theorems -/

/-- C10 (counterexample): moving from an estimator whose configuration flags
are `true` leaves a moved-from object whose flags are `false` — the
configuration is cleared along with the fitted state, not preserved as the
claim states. -/
theorem brMove_config_cleared_counterexample :
    (brMoveCtor fixC10Est).2.fitIntercept = false ∧
    (brMoveCtor fixC10Est).2.normalize = false ∧
    fixC10Est.fitIntercept = true ∧ fixC10Est.normalize = true ∧
    (brMoveAssign (brCleared 1) fixC10Est).2.fitIntercept = false := by
  refine ⟨rfl, rfl, rfl, rfl, rfl⟩

/-- C10 (amended): after a move construction or a (distinct-object) move
assignment, the destination holds every field of the source, and the
moved-from estimator is fully cleared — the fitted state is zeroed and the
configuration flags are also reset to `false`, not copied into the
moved-from object. -/
theorem brMove_resets_whole_source {p : ℕ} (a other : BREstimator p) :
    brMoveCtor other = (other, brCleared p) ∧
    brMoveAssign a other = (other, brCleared p) :=
  ⟨rfl, rfl⟩

/-- C6 (counterexample): for `t = (0, 2)` the population variance is `1` so
the claimed initialization would give `beta = 1/(0.1 * 1) = 10`, but
`BayesianRidge::Train` computes `1/(var(t) * 0.1)` with Armadillo's default
sample variance `2`, giving `beta = 5`. -/
theorem brBetaInit_not_population_counterexample :
    brBetaInit ![0, 2] = 5 ∧
    1 / (vecVarPop ![0, 2] * (1 / 10)) = 10 ∧
    brBetaInit ![0, 2] ≠ 1 / (vecVarPop ![0, 2] * (1 / 10)) := by
  have hpop : vecVarPop (![0, 2] : Fin 2 → ℚ) = 1 := by
    norm_num [vecVarPop, vecMean, Fin.sum_univ_two]
  have hsam : vecVarSample (![0, 2] : Fin 2 → ℚ) = 2 := by
    norm_num [vecVarSample, vecMean, Fin.sum_univ_two]
  refine ⟨by norm_num [brBetaInit, hsam], by norm_num [hpop], ?_⟩
  norm_num [brBetaInit, hsam, hpop]

/-- C6 (amended): both variants initialize `alpha = 1e-6`, and both set
`beta = 1/(0.1 * variance(t))`, but with different normalizers: the
`BayesianLinearRegression` variant uses the population (`1/n`) variance
while the `BayesianRidge` variant uses the sample (`1/(n-1)`) variance. -/
theorem betaInit_normalizers {n : ℕ} (t : Fin n → ℚ) :
    blrBetaInit t =
      1 / ((∑ j, (t j - (∑ k, t k) / n) ^ 2) / n * (1 / 10)) ∧
    brBetaInit t =
      1 / ((∑ j, (t j - (∑ k, t k) / n) ^ 2) / ((n : ℚ) - 1) * (1 / 10)) ∧
    alphaInit = 1 / 1000000 :=
  ⟨rfl, rfl, rfl⟩

/-- C4 (counterexample): training `fixC4Est` (a previously fitted estimator
with `dataOffset = 5`, `alpha = 7`) on data with mean `3` and a failing
eigensolver aborts (`none`) — but the data offset has already been
overwritten with the new mean `3` while the stale posterior `alpha = 7`
remains: the estimator is neither reverted nor untrained. -/
theorem blrTrain_failure_mutation_counterexample :
    (blrTrain id fixC4Est !![2, 4] ![0, 0] fixC4Eig !![1]).2 = none ∧
    (blrTrain id fixC4Est !![2, 4] ![0, 0] fixC4Eig !![1]).1.dataOffset 0 = 3 ∧
    fixC4Est.dataOffset 0 = 5 ∧
    (blrTrain id fixC4Est !![2, 4] ![0, 0] fixC4Eig !![1]).1.alpha = 7 := by
  refine ⟨rfl, ?_, rfl, rfl⟩
  norm_num [blrTrain, fixC4Est, fixC4Eig, centerScaleData, rowMean, vecMean,
    Fin.sum_univ_two]

/-- C4 (amended): when the eigensolver fails, `Train` aborts with the
preprocessing parameters already overwritten by `CenterScaleData` and every
posterior field untouched from before the call — a partial mutation remains;
the estimator is not reverted to untrained. -/
theorem blrTrain_failure_keeps_written_state {p n : ℕ} (sq : ℚ → ℚ)
    (est : BLREstimator p) (data : Matrix (Fin p) (Fin n) ℚ)
    (responses : Fin n → ℚ) (eig : EigSym p) (vi : Matrix (Fin p) (Fin p) ℚ)
    (h : eig.success = false) :
    (blrTrain sq est data responses eig vi).2 = none ∧
    (blrTrain sq est data responses eig vi).1 =
      { est with
        dataOffset :=
          (centerScaleData sq data responses est.centerData
            est.scaleData).dataOffset
        dataScale :=
          (centerScaleData sq data responses est.centerData
            est.scaleData).dataScale
        responsesOffset :=
          (centerScaleData sq data responses est.centerData
            est.scaleData).responsesOffset } := by
  unfold blrTrain
  rw [if_pos h]
  exact ⟨rfl, rfl⟩

/-- C4 (witness): the amended theorem applied to the concrete failing-train
fixture. -/
theorem blrTrain_failure_keeps_written_state_witness :
    fixC4Eig.success = false ∧
    ((blrTrain id fixC4Est !![2, 4] ![0, 0] fixC4Eig !![1]).2 = none ∧
     (blrTrain id fixC4Est !![2, 4] ![0, 0] fixC4Eig !![1]).1 =
       { fixC4Est with
         dataOffset :=
           (centerScaleData id !![2, 4] ![0, 0] fixC4Est.centerData
             fixC4Est.scaleData).dataOffset
         dataScale :=
           (centerScaleData id !![2, 4] ![0, 0] fixC4Est.centerData
             fixC4Est.scaleData).dataScale
         responsesOffset :=
           (centerScaleData id !![2, 4] ![0, 0] fixC4Est.centerData
             fixC4Est.scaleData).responsesOffset }) :=
  ⟨rfl, blrTrain_failure_keeps_written_state id fixC4Est !![2, 4] ![0, 0]
    fixC4Eig !![1] rfl⟩

/-- C3 (counterexample): on the constant-feature fixture with
`scaleData = true`, the computed scale is `0`, the processed data is the
centered data divided by that zero scale, and `Train` nevertheless completes
and returns a value — no degenerate-data error exists in the code. -/
theorem blrTrain_zero_stddev_counterexample :
    (centerScaleData id fixC3Data ![0, 1] false true).dataScale 0 = 0 ∧
    (centerScaleData id fixC3Data ![0, 1] false true).phi 0 0 = 3 / 0 ∧
    (blrTrain id fixC3Est fixC3Data ![0, 1] fixC3Eig !![1]).2.isSome = true := by
  have hscale : (centerScaleData id fixC3Data ![0, 1] false true).dataScale 0
      = 0 := by
    norm_num [centerScaleData, rowStddev, rowVarSample, vecVarSample, vecMean,
      fixC3Data, Fin.sum_univ_two]
  refine ⟨hscale, ?_, rfl⟩
  norm_num [centerScaleData, rowStddev, rowVarSample, vecVarSample, vecMean,
    fixC3Data, Fin.sum_univ_two]

/-- C3 (amended): when `scaleData` is `true` and feature `i` has zero
variance across samples, `Train` does not fail: `CenterScaleData` sets
`dataScale[i] = 0` and performs the division of the centered data by that
zero anyway, and (given a successful eigensolver) `Train` runs to completion
and returns a value. -/
theorem blrTrain_zero_stddev_divides {p n : ℕ} (sq : ℚ → ℚ)
    (est : BLREstimator p) (data : Matrix (Fin p) (Fin n) ℚ)
    (responses : Fin n → ℚ) (eig : EigSym p) (vi : Matrix (Fin p) (Fin p) ℚ)
    (i : Fin p) (hvar : rowVarSample data i = 0) (hsq : sq 0 = 0)
    (hscale : est.scaleData = true) (heig : eig.success = true) :
    (centerScaleData sq data responses est.centerData est.scaleData).dataScale
      i = 0 ∧
    (∀ j, (centerScaleData sq data responses est.centerData
        est.scaleData).phi i j =
      (data i j - (centerScaleData sq data responses est.centerData
        est.scaleData).dataOffset i) / 0) ∧
    (blrTrain sq est data responses eig vi).2.isSome = true := by
  have h0 : (centerScaleData sq data responses est.centerData
      est.scaleData).dataScale i = 0 := by
    simp [centerScaleData, hscale, rowStddev, hvar, hsq]
  refine ⟨h0, ?_, ?_⟩
  · intro j
    simp only [centerScaleData] at h0 ⊢
    rw [h0]
  · unfold blrTrain
    rw [if_neg (by simp [heig])]
    rfl

/-- C3 (witness): the amended theorem applied to the constant-feature
fixture. -/
theorem blrTrain_zero_stddev_divides_witness :
    rowVarSample fixC3Data 0 = 0 ∧
    ((centerScaleData id fixC3Data ![0, 1] fixC3Est.centerData
        fixC3Est.scaleData).dataScale 0 = 0 ∧
     (∀ j, (centerScaleData id fixC3Data ![0, 1] fixC3Est.centerData
         fixC3Est.scaleData).phi 0 j =
       (fixC3Data 0 j - (centerScaleData id fixC3Data ![0, 1]
         fixC3Est.centerData fixC3Est.scaleData).dataOffset 0) / 0) ∧
     (blrTrain id fixC3Est fixC3Data ![0, 1] fixC3Eig !![1]).2.isSome
       = true) :=
  ⟨by norm_num [rowVarSample, vecVarSample, vecMean, fixC3Data,
      Fin.sum_univ_two],
   blrTrain_zero_stddev_divides id fixC3Est fixC3Data ![0, 1] fixC3Eig !![1] 0
     (by norm_num [rowVarSample, vecVarSample, vecMean, fixC3Data,
       Fin.sum_univ_two])
     rfl rfl rfl⟩

/-- C1: one iteration of the `BayesianLinearRegression::Train` loop performs
the spec's updates in order — `omega` from the pre-update `alpha`, `beta`;
then `gamma = Σ_i (beta * eigVal_i)/(alpha + beta * eigVal_i)` with the
pre-update hyperparameters; then `alpha = gamma / dot(omega, omega)`; then
`beta = (n - gamma) / dot(r, r)` with `r = t - omegaᵀ * phi` — and the loop
returns exactly when `crit = |(alpha - oldAlpha)/alpha +
(beta - oldBeta)/beta| ≤ tol` or the iteration budget is exhausted. -/
theorem blr_step_order_and_stop {p n : ℕ} (c : SpectralCache p n)
    (s : IterState p) (tol : ℚ) (hbeta : 0 < s.beta) :
    ((trainStep c s).omega =
      (c.eigVec * Matrix.diagonal
        (fun i => 1 / (c.eigVal i + s.alpha / s.beta))).mulVec
        (eigVecInvPhitT c)) ∧
    ((trainStep c s).gamma =
      ∑ i, s.beta * c.eigVal i / (s.alpha + s.beta * c.eigVal i)) ∧
    ((trainStep c s).alpha = (trainStep c s).gamma /
      Matrix.dotProduct (trainStep c s).omega (trainStep c s).omega) ∧
    ((trainStep c s).beta = ((n : ℚ) - (trainStep c s).gamma) /
      Matrix.dotProduct
        (fun j => c.t j - Matrix.vecMul (trainStep c s).omega c.phi j)
        (fun j => c.t j - Matrix.vecMul (trainStep c s).omega c.phi j)) ∧
    (∀ (crit : ℚ) (s' : IterState p), trainLoop c tol 0 crit s' = s') ∧
    (∀ (fuel : ℕ) (crit : ℚ) (s' : IterState p), crit ≤ tol →
      trainLoop c tol (fuel + 1) crit s' = s') ∧
    (∀ (fuel : ℕ) (crit : ℚ) (s' : IterState p), tol < crit →
      trainLoop c tol (fuel + 1) crit s' =
        trainLoop c tol fuel (critOf s' (trainStep c s')) (trainStep c s')) := by
  refine ⟨rfl, ?_, rfl, rfl, fun crit s' => rfl, ?_, ?_⟩
  · show (∑ i, c.eigVal i / (s.alpha / s.beta + c.eigVal i)) = _
    refine Finset.sum_congr rfl fun i _ => ?_
    rw [show s.alpha + s.beta * c.eigVal i
        = s.beta * (s.alpha / s.beta + c.eigVal i) by
      field_simp
      ring]
    exact (mul_div_mul_left (c.eigVal i) _ hbeta.ne').symm
  · intro fuel crit s' h
    simp only [trainLoop]
    rw [if_neg (not_lt.mpr h)]
  · intro fuel crit s' h
    simp only [trainLoop]
    rw [if_pos h]

/-- C1 (witness): the iteration-order theorem applied to the trivial
one-feature cache and unit state. -/
theorem blr_step_order_and_stop_witness :
    (0 : ℚ) < fixC1State.beta ∧
    (((trainStep fixC1Cache fixC1State).omega =
      (fixC1Cache.eigVec * Matrix.diagonal
        (fun i => 1 / (fixC1Cache.eigVal i +
          fixC1State.alpha / fixC1State.beta))).mulVec
        (eigVecInvPhitT fixC1Cache)) ∧
    ((trainStep fixC1Cache fixC1State).gamma =
      ∑ i, fixC1State.beta * fixC1Cache.eigVal i /
        (fixC1State.alpha + fixC1State.beta * fixC1Cache.eigVal i)) ∧
    ((trainStep fixC1Cache fixC1State).alpha =
      (trainStep fixC1Cache fixC1State).gamma /
      Matrix.dotProduct (trainStep fixC1Cache fixC1State).omega
        (trainStep fixC1Cache fixC1State).omega) ∧
    ((trainStep fixC1Cache fixC1State).beta =
      ((1 : ℚ) - (trainStep fixC1Cache fixC1State).gamma) /
      Matrix.dotProduct
        (fun j => fixC1Cache.t j - Matrix.vecMul
          (trainStep fixC1Cache fixC1State).omega fixC1Cache.phi j)
        (fun j => fixC1Cache.t j - Matrix.vecMul
          (trainStep fixC1Cache fixC1State).omega fixC1Cache.phi j)) ∧
    (∀ (crit : ℚ) (s' : IterState 1), trainLoop fixC1Cache 1 0 crit s' = s') ∧
    (∀ (fuel : ℕ) (crit : ℚ) (s' : IterState 1), crit ≤ 1 →
      trainLoop fixC1Cache 1 (fuel + 1) crit s' = s') ∧
    (∀ (fuel : ℕ) (crit : ℚ) (s' : IterState 1), 1 < crit →
      trainLoop fixC1Cache 1 (fuel + 1) crit s' =
        trainLoop fixC1Cache 1 fuel
          (critOf s' (trainStep fixC1Cache s'))
          (trainStep fixC1Cache s'))) :=
  ⟨by norm_num [fixC1State],
   blr_step_order_and_stop fixC1Cache fixC1State 1
     (by norm_num [fixC1State])⟩

/-- C5 (counterexample): on `fixC5Cache` the computed weight mean is the
zero vector, so `dot(omega, omega) = 0` arises mid-iteration; yet the loop
body performs `alpha = gamma / 0` anyway (in this exact model the total
division yields `0`; in IEEE arithmetic, `inf`), so `alpha` is not held at
its current estimate `1e-6`, the update is not clamped, and no degenerate
flag exists. -/
theorem blr_no_degenerate_guard_counterexample :
    Matrix.dotProduct (trainStep fixC5Cache fixC5State).omega
      (trainStep fixC5Cache fixC5State).omega = 0 ∧
    (trainStep fixC5Cache fixC5State).gamma = 90000000 / 90000001 ∧
    (trainStep fixC5Cache fixC5State).alpha = 0 ∧
    fixC5State.alpha = 1 / 1000000 := by
  have homega : (trainStep fixC5Cache fixC5State).omega = fun _ => 0 := by
    funext i
    fin_cases i
    simp [trainStep, fixC5Cache, fixC5State, eigVecInvPhitT, Matrix.mulVec,
      Matrix.vecMul, Matrix.dotProduct, Matrix.mul_apply, Fin.sum_univ_one,
      Fin.sum_univ_three, Matrix.diagonal]
  have hdot : Matrix.dotProduct (trainStep fixC5Cache fixC5State).omega
      (trainStep fixC5Cache fixC5State).omega = 0 := by
    rw [homega]
    simp [Matrix.dotProduct]
  have hgamma : (trainStep fixC5Cache fixC5State).gamma
      = 90000000 / 90000001 := by
    simp [trainStep, fixC5Cache, fixC5State, Fin.sum_univ_one]
    norm_num
  have halpha : (trainStep fixC5Cache fixC5State).alpha =
      (trainStep fixC5Cache fixC5State).gamma /
      Matrix.dotProduct (trainStep fixC5Cache fixC5State).omega
        (trainStep fixC5Cache fixC5State).omega := rfl
  exact ⟨hdot, hgamma, by rw [halpha, hdot, div_zero], rfl⟩

/-- C5 (amended): the loop body has no guard at all: `alpha` and `beta` are
always produced by the divisions `gamma / dot(omega, omega)` and
`(n - gamma) / dot(r, r)`, whatever the divisors are, no value is clamped to
its prior, no degeneracy flag exists, and the iteration recurses on the
`crit`/budget test alone. -/
theorem blr_loop_unguarded_updates {p n : ℕ} (c : SpectralCache p n)
    (s s' : IterState p) (tol crit : ℚ) (fuel : ℕ) (h : tol < crit) :
    ((trainStep c s).alpha = (trainStep c s).gamma /
      Matrix.dotProduct (trainStep c s).omega (trainStep c s).omega) ∧
    ((trainStep c s).beta = ((n : ℚ) - (trainStep c s).gamma) /
      Matrix.dotProduct
        (fun j => c.t j - Matrix.vecMul (trainStep c s).omega c.phi j)
        (fun j => c.t j - Matrix.vecMul (trainStep c s).omega c.phi j)) ∧
    (trainLoop c tol (fuel + 1) crit s' =
      trainLoop c tol fuel (critOf s' (trainStep c s')) (trainStep c s')) := by
  refine ⟨rfl, rfl, ?_⟩
  simp only [trainLoop]
  rw [if_pos h]

/-- C5 (witness): the amended theorem applied to the degenerate fixture with
`tol = 1/1000` and the loop's initial criterion `crit = 1`. -/
theorem blr_loop_unguarded_updates_witness :
    (1 : ℚ) / 1000 < 1 ∧
    (((trainStep fixC5Cache fixC5State).alpha =
      (trainStep fixC5Cache fixC5State).gamma /
      Matrix.dotProduct (trainStep fixC5Cache fixC5State).omega
        (trainStep fixC5Cache fixC5State).omega) ∧
    ((trainStep fixC5Cache fixC5State).beta =
      ((3 : ℚ) - (trainStep fixC5Cache fixC5State).gamma) /
      Matrix.dotProduct
        (fun j => fixC5Cache.t j - Matrix.vecMul
          (trainStep fixC5Cache fixC5State).omega fixC5Cache.phi j)
        (fun j => fixC5Cache.t j - Matrix.vecMul
          (trainStep fixC5Cache fixC5State).omega fixC5Cache.phi j)) ∧
    (trainLoop fixC5Cache (1 / 1000) (0 + 1) 1 fixC5State =
      trainLoop fixC5Cache (1 / 1000) 0
        (critOf fixC5State (trainStep fixC5Cache fixC5State))
        (trainStep fixC5Cache fixC5State))) :=
  ⟨by norm_num,
   blr_loop_unguarded_updates fixC5Cache fixC5State fixC5State (1 / 1000) 1 0
     (by norm_num)⟩

/-- C7: for every estimator state and query matrix, both variants' Predict
with uncertainties return, per query column `x` with
`x' = (x - featureOffset) ⊘ featureScale`, the prediction
`omegaᵀ x' + responsesOffset` and the standard deviation
`sqrt(1/beta + x'ᵀ matCovariance x')`, where `1/beta` is the value the
`Variance()` accessor exposes. -/
theorem predictStd_formula {p m : ℕ} (sq : ℚ → ℚ) (estL : BLREstimator p)
    (estR : BREstimator p) (points : Matrix (Fin p) (Fin m) ℚ) (j : Fin m) :
    ((blrPredictStd sq estL points).1 j =
      Matrix.dotProduct estL.omega
        (fun i => (points i j - estL.dataOffset i) / estL.dataScale i) +
      estL.responsesOffset) ∧
    ((blrPredictStd sq estL points).2 j =
      sq (1 / estL.beta + Matrix.dotProduct
        (fun i => (points i j - estL.dataOffset i) / estL.dataScale i)
        (estL.matCovariance.mulVec
          (fun i => (points i j - estL.dataOffset i) / estL.dataScale i)))) ∧
    ((brPredictStd sq estR points).1 j =
      Matrix.dotProduct estR.omega
        (fun i => (points i j - estR.dataOffset i) / estR.dataScale i) +
      estR.responsesOffset) ∧
    ((brPredictStd sq estR points).2 j =
      sq (1 / estR.beta + Matrix.dotProduct
        (fun i => (points i j - estR.dataOffset i) / estR.dataScale i)
        (estR.matCovariance.mulVec
          (fun i => (points i j - estR.dataOffset i) / estR.dataScale i)))) ∧
    blrVariance estL = 1 / estL.beta ∧ brVariance estR = 1 / estR.beta := by
  refine ⟨?_, ?_, ?_, ?_, rfl, rfl⟩
  · simp [blrPredictStd, Matrix.vecMul, Matrix.dotProduct]
  · simp [blrPredictStd, blrVariance, Matrix.mulVec, Matrix.dotProduct,
      Matrix.mul_apply]
  · simp [brPredictStd, Matrix.vecMul, Matrix.dotProduct]
  · simp [brPredictStd, brVariance, Matrix.dotProduct_mulVec]

/-- C8 (counterexample): `fixC8Data` has linearly dependent rows (its second
row is zero) and `fixC8Eig` is the exact eigendecomposition of its Gram
matrix, with smallest eigenvalue `0`; `BayesianRidge::Train` then returns
the sentinel `-1` — not a training RMSE — and leaves the posterior state
untouched (`alpha` keeps its prior value `7`), contradicting the claim that
colinear training completes successfully. -/
theorem brTrain_colinear_sentinel_counterexample :
    fixC8Eig.eigVec * Matrix.diagonal fixC8Eig.eigVal *
      fixC8Eig.eigVec.transpose = fixC8Data * fixC8Data.transpose ∧
    fixC8Data 1 0 = 0 ∧ fixC8Data 1 1 = 0 ∧
    (brTrain id id fixC8Est fixC8Data ![1, 2] fixC8Eig).2 = -1 ∧
    (brTrain id id fixC8Est fixC8Data ![1, 2] fixC8Eig).1.alpha = 7 ∧
    fixC8Est.alpha = 7 := by
  refine ⟨?_, rfl, rfl, ?_, ?_, rfl⟩
  · ext i j
    fin_cases i <;> fin_cases j <;>
      norm_num [fixC8Eig, fixC8Data, Matrix.mul_apply, Matrix.diagonal,
        Fin.sum_univ_two, Matrix.vecHead, Matrix.vecTail, Matrix.transpose]
  · unfold brTrain
    rw [if_pos (show fixC8Eig.eigVal 0 = 0 from rfl)]
  · unfold brTrain
    rw [if_pos (show fixC8Eig.eigVal 0 = 0 from rfl)]
    rfl

/-- C8 (amended): on an input whose Gram matrix has an exactly zero smallest
eigenvalue (as exact colinear rows produce), `BayesianRidge::Train` returns
the sentinel `-1` with the posterior state untouched (only the preprocessing
parameters are overwritten); `BayesianLinearRegression::Train` has no such
check and completes with a result whenever its eigensolver succeeds. -/
theorem brTrain_zero_eigval_sentinel {p n : ℕ} (sq : ℚ → ℚ)
    (sympdInv : Matrix (Fin (p + 1)) (Fin (p + 1)) ℚ →
      Matrix (Fin (p + 1)) (Fin (p + 1)) ℚ)
    (est : BREstimator (p + 1)) (data : Matrix (Fin (p + 1)) (Fin n) ℚ)
    (responses : Fin n → ℚ) (eig : EigSym (p + 1))
    (h : eig.eigVal 0 = 0) :
    (brTrain sq sympdInv est data responses eig).2 = -1 ∧
    (brTrain sq sympdInv est data responses eig).1 =
      { est with
        dataOffset :=
          (centerScaleData sq data responses est.fitIntercept
            est.normalize).dataOffset
        dataScale :=
          (centerScaleData sq data responses est.fitIntercept
            est.normalize).dataScale
        responsesOffset :=
          (centerScaleData sq data responses est.fitIntercept
            est.normalize).responsesOffset } ∧
    (∀ (p' n' : ℕ) (sq' : ℚ → ℚ) (est' : BLREstimator p')
        (data' : Matrix (Fin p') (Fin n') ℚ) (responses' : Fin n' → ℚ)
        (eig' : EigSym p') (vi' : Matrix (Fin p') (Fin p') ℚ),
      eig'.success = true →
      (blrTrain sq' est' data' responses' eig' vi').2.isSome = true) := by
  refine ⟨?_, ?_, ?_⟩
  · unfold brTrain
    rw [if_pos h]
  · unfold brTrain
    rw [if_pos h]
  · intro p' n' sq' est' data' responses' eig' vi' heig
    unfold blrTrain
    rw [if_neg (by simp [heig])]
    rfl

/-- C8 (witness): the amended theorem applied to the colinear fixture. -/
theorem brTrain_zero_eigval_sentinel_witness :
    fixC8Eig.eigVal 0 = 0 ∧
    ((brTrain id id fixC8Est fixC8Data ![1, 2] fixC8Eig).2 = -1 ∧
     (brTrain id id fixC8Est fixC8Data ![1, 2] fixC8Eig).1 =
       { fixC8Est with
         dataOffset :=
           (centerScaleData id fixC8Data ![1, 2] fixC8Est.fitIntercept
             fixC8Est.normalize).dataOffset
         dataScale :=
           (centerScaleData id fixC8Data ![1, 2] fixC8Est.fitIntercept
             fixC8Est.normalize).dataScale
         responsesOffset :=
           (centerScaleData id fixC8Data ![1, 2] fixC8Est.fitIntercept
             fixC8Est.normalize).responsesOffset } ∧
     (∀ (p' n' : ℕ) (sq' : ℚ → ℚ) (est' : BLREstimator p')
         (data' : Matrix (Fin p') (Fin n') ℚ) (responses' : Fin n' → ℚ)
         (eig' : EigSym p') (vi' : Matrix (Fin p') (Fin p') ℚ),
       eig'.success = true →
       (blrTrain sq' est' data' responses' eig' vi').2.isSome = true)) :=
  ⟨rfl, brTrain_zero_eigval_sentinel id id fixC8Est fixC8Data ![1, 2]
    fixC8Eig rfl⟩

/-- Helper: conjugation by `V`/`Vi` turns products of diagonals into the
diagonal of the product. -/
theorem conj_diag_mul {p : ℕ} (V Vi : Matrix (Fin p) (Fin p) ℚ)
    (hViV : Vi * V = 1) (d e : Fin p → ℚ) :
    (V * Matrix.diagonal d * Vi) * (V * Matrix.diagonal e * Vi)
      = V * Matrix.diagonal (fun i => d i * e i) * Vi := by
  simp only [Matrix.mul_assoc]
  rw [← Matrix.mul_assoc Vi V _, hViV, Matrix.one_mul,
    ← Matrix.mul_assoc (Matrix.diagonal d) (Matrix.diagonal e) Vi,
    Matrix.diagonal_mul_diagonal]

/-- Helper: `alpha * I + beta * (V D Vi)` is the conjugate of the diagonal
matrix with entries `alpha + beta * d i`. -/
theorem conj_A {p : ℕ} (V Vi : Matrix (Fin p) (Fin p) ℚ)
    (hVi : V * Vi = 1) (d : Fin p → ℚ) (alpha beta : ℚ) :
    Matrix.diagonal (fun _ => alpha) + beta • (V * Matrix.diagonal d * Vi)
      = V * Matrix.diagonal (fun i => alpha + beta * d i) * Vi := by
  have hd' : Matrix.diagonal (fun i : Fin p => alpha + beta * d i)
      = Matrix.diagonal (fun _ : Fin p => alpha) +
        beta • Matrix.diagonal d := by
    rw [← Matrix.diagonal_smul, Matrix.diagonal_add]
    rfl
  have h1 : V * Matrix.diagonal (fun _ : Fin p => alpha) * Vi
      = Matrix.diagonal (fun _ : Fin p => alpha) := by
    rw [Matrix.mul_assoc, ← Matrix.smul_eq_diagonal_mul Vi alpha,
      Matrix.mul_smul, hVi, Matrix.smul_eq_diagonal_mul, Matrix.mul_one]
  have h2 : V * (beta • Matrix.diagonal d) * Vi
      = beta • (V * Matrix.diagonal d * Vi) := by
    rw [Matrix.mul_smul, Matrix.smul_mul]
  rw [hd', Matrix.mul_add, Matrix.add_mul, h1, h2]

/-- C2: with `G = V * diagonal d * Vi` the (exact-arithmetic) invariant of
the eigendecomposition of the Gram matrix, `alpha, beta > 0`, nonnegative
eigenvalues, and `M` the output of the SPD-inverse collaborator on
`alpha * I + beta * G` (`inv_sympd` returns the genuine inverse, stated as
the hypothesis `A * M = 1`), the `BayesianRidge` direct path
`(M * (phi tᵀ)) * beta` equals the `BayesianLinearRegression` spectral path
`V * diagmat(1/(d + alpha/beta)) * Vi * (phi tᵀ)`: the two variants compute
the same per-iteration posterior mean. -/
theorem weight_mean_paths_agree {p : ℕ} (V Vi M : Matrix (Fin p) (Fin p) ℚ)
    (d : Fin p → ℚ) (alpha beta : ℚ) (b : Fin p → ℚ)
    (hVi : V * Vi = 1) (ha : 0 < alpha) (hb : 0 < beta) (hd : ∀ i, 0 ≤ d i)
    (hM : (Matrix.diagonal (fun _ => alpha) +
      beta • (V * Matrix.diagonal d * Vi)) * M = 1) :
    directWeightMean M beta b = eigWeightMean V Vi d alpha beta b := by
  have hViV : Vi * V = 1 := Matrix.mul_eq_one_comm.mp hVi
  have hpos : ∀ i, alpha + beta * d i ≠ 0 := fun i =>
    (add_pos_of_pos_of_nonneg ha (mul_nonneg hb.le (hd i))).ne'
  have hA := conj_A V Vi hVi d alpha beta
  have hAB : (V * Matrix.diagonal (fun i => alpha + beta * d i) * Vi) *
      (V * Matrix.diagonal (fun i => (alpha + beta * d i)⁻¹) * Vi) = 1 := by
    rw [conj_diag_mul V Vi hViV]
    have hone : (fun i => (alpha + beta * d i) * (alpha + beta * d i)⁻¹)
        = fun _ : Fin p => (1 : ℚ) :=
      funext fun i => mul_inv_cancel₀ (hpos i)
    rw [hone, Matrix.diagonal_one, Matrix.mul_one, hVi]
  have hMB : M = V * Matrix.diagonal (fun i => (alpha + beta * d i)⁻¹) * Vi := by
    have hBA : (V * Matrix.diagonal (fun i => (alpha + beta * d i)⁻¹) * Vi) *
        (V * Matrix.diagonal (fun i => alpha + beta * d i) * Vi) = 1 :=
      Matrix.mul_eq_one_comm.mp hAB
    calc M = 1 * M := (Matrix.one_mul M).symm
    _ = ((V * Matrix.diagonal (fun i => (alpha + beta * d i)⁻¹) * Vi) *
          (V * Matrix.diagonal (fun i => alpha + beta * d i) * Vi)) * M := by
        rw [hBA]
    _ = (V * Matrix.diagonal (fun i => (alpha + beta * d i)⁻¹) * Vi) *
          ((V * Matrix.diagonal (fun i => alpha + beta * d i) * Vi) * M) := by
        rw [Matrix.mul_assoc]
    _ = (V * Matrix.diagonal (fun i => (alpha + beta * d i)⁻¹) * Vi) * 1 := by
        rw [← hA, hM]
    _ = V * Matrix.diagonal (fun i => (alpha + beta * d i)⁻¹) * Vi :=
        Matrix.mul_one _
  have hdiag : (fun i => beta * (alpha + beta * d i)⁻¹)
      = fun i => 1 / (d i + alpha / beta) := by
    funext i
    have hstep : d i + alpha / beta = (alpha + beta * d i) / beta := by
      field_simp
      ring
    rw [hstep, one_div_div, div_eq_mul_inv]
  funext i
  show M.mulVec b i * beta = _
  rw [hMB, mul_comm]
  have hsmul : beta * ((V * Matrix.diagonal
        (fun i => (alpha + beta * d i)⁻¹) * Vi).mulVec b) i
      = ((beta • (V * Matrix.diagonal
          (fun i => (alpha + beta * d i)⁻¹) * Vi)).mulVec b) i := by
    rw [Matrix.smul_mulVec_assoc]
    rfl
  rw [hsmul, ← Matrix.smul_mul, ← Matrix.mul_smul, ← Matrix.diagonal_smul]
  show ((V * Matrix.diagonal (beta • fun i => (alpha + beta * d i)⁻¹) *
    Vi).mulVec b) i = _
  have hsm : (beta • fun i => (alpha + beta * d i)⁻¹)
      = fun i => beta * (alpha + beta * d i)⁻¹ := rfl
  rw [hsm, hdiag]
  show ((V * Matrix.diagonal (fun i => 1 / (d i + alpha / beta)) *
    Vi).mulVec b) i = _
  unfold eigWeightMean
  rw [Matrix.mulVec_mulVec, Matrix.mul_assoc]

/-- C2 (witness): the equivalence applied to the concrete 1x1 instance
`V = Vi = I`, `d = (1)`, `alpha = beta = 1`, `b = (1)`, with the inverse
`M = (1/2)` of `A = (2)`. -/
theorem weight_mean_paths_agree_witness :
    ((!![1] : Matrix (Fin 1) (Fin 1) ℚ) * !![1] = 1) ∧
    ((Matrix.diagonal (fun _ : Fin 1 => (1 : ℚ)) +
      (1 : ℚ) • (!![1] * Matrix.diagonal ![1] * !![1])) * !![(1 : ℚ) / 2]
        = 1) ∧
    directWeightMean !![(1 : ℚ) / 2] 1 ![1] =
      eigWeightMean !![1] !![1] ![1] 1 1 ![1] :=
  ⟨by ext i j; fin_cases i; fin_cases j; simp [Matrix.mul_apply],
   by
     ext i j
     fin_cases i; fin_cases j
     norm_num [Matrix.mul_apply, Matrix.diagonal, Matrix.vecHead, Matrix.vecTail],
   weight_mean_paths_agree !![1] !![1] !![(1 : ℚ) / 2] ![1] 1 1 ![1]
     (by ext i j; fin_cases i; fin_cases j; simp [Matrix.mul_apply])
     (by norm_num) (by norm_num)
     (by intro i; fin_cases i; norm_num)
     (by
       ext i j
       fin_cases i; fin_cases j
       norm_num [Matrix.mul_apply, Matrix.diagonal, Matrix.vecHead, Matrix.vecTail])⟩

/-- Helper: `gamma` computed by a loop iteration lies in `[0, p]` whenever
the eigenvalues are nonnegative and the incoming hyperparameters are
positive. -/
theorem trainStep_gamma_bounds {p n : ℕ} (c : SpectralCache p n)
    (s : IterState p) (hval : ∀ i, 0 ≤ c.eigVal i)
    (ha : 0 < s.alpha) (hb : 0 < s.beta) :
    0 ≤ (trainStep c s).gamma ∧ (trainStep c s).gamma ≤ p := by
  have hq : 0 < s.alpha / s.beta := div_pos ha hb
  constructor
  · show 0 ≤ ∑ i, c.eigVal i / (s.alpha / s.beta + c.eigVal i)
    apply Finset.sum_nonneg
    intro i _
    exact div_nonneg (hval i) (add_nonneg hq.le (hval i))
  · have hterm : ∀ i, c.eigVal i / (s.alpha / s.beta + c.eigVal i) ≤ 1 := by
      intro i
      rw [div_le_one (add_pos_of_pos_of_nonneg hq (hval i))]
      linarith [hq]
    show (∑ i, c.eigVal i / (s.alpha / s.beta + c.eigVal i)) ≤ (p : ℚ)
    calc (∑ i, c.eigVal i / (s.alpha / s.beta + c.eigVal i))
        ≤ ∑ _i : Fin p, (1 : ℚ) := Finset.sum_le_sum (fun i _ => hterm i)
    _ = p := by simp

/-- Helper: `gamma` is strictly positive when some eigenvalue is. -/
theorem trainStep_gamma_pos {p n : ℕ} (c : SpectralCache p n)
    (s : IterState p) (hval : ∀ i, 0 ≤ c.eigVal i)
    (hex : ∃ i, 0 < c.eigVal i) (ha : 0 < s.alpha) (hb : 0 < s.beta) :
    0 < (trainStep c s).gamma := by
  have hq : 0 < s.alpha / s.beta := div_pos ha hb
  obtain ⟨i0, hi0⟩ := hex
  show 0 < ∑ i, c.eigVal i / (s.alpha / s.beta + c.eigVal i)
  refine Finset.sum_pos' (fun i _ => div_nonneg (hval i)
    (add_nonneg hq.le (hval i))) ⟨i0, Finset.mem_univ i0, ?_⟩
  exact div_pos hi0 (add_pos hq hi0)

/-- Helper: one loop iteration keeps `alpha` and `beta` positive when the
divisors are positive and `gamma` stays below `n`. -/
theorem trainStep_preserves_pos {p n : ℕ} (c : SpectralCache p n)
    (s : IterState p) (hval : ∀ i, 0 ≤ c.eigVal i)
    (hex : ∃ i, 0 < c.eigVal i) (ha : 0 < s.alpha) (hb : 0 < s.beta)
    (hw : 0 < Matrix.dotProduct (trainStep c s).omega (trainStep c s).omega)
    (hr : 0 < Matrix.dotProduct
      (fun j => c.t j - Matrix.vecMul (trainStep c s).omega c.phi j)
      (fun j => c.t j - Matrix.vecMul (trainStep c s).omega c.phi j))
    (hg : (trainStep c s).gamma < n) :
    0 < (trainStep c s).alpha ∧ 0 < (trainStep c s).beta := by
  constructor
  · show 0 < (trainStep c s).gamma / Matrix.dotProduct (trainStep c s).omega
      (trainStep c s).omega
    exact div_pos (trainStep_gamma_pos c s hval hex ha hb) hw
  · show 0 < ((n : ℚ) - (trainStep c s).gamma) / Matrix.dotProduct
      (fun j => c.t j - Matrix.vecMul (trainStep c s).omega c.phi j)
      (fun j => c.t j - Matrix.vecMul (trainStep c s).omega c.phi j)
    exact div_pos (sub_pos.mpr hg) hr

/-- Helper: the whole loop keeps `alpha` and `beta` positive under the
nondegeneracy conditions. -/
theorem trainLoop_preserves_pos {p n : ℕ} (c : SpectralCache p n) (tol : ℚ)
    (hval : ∀ i, 0 ≤ c.eigVal i) (hex : ∃ i, 0 < c.eigVal i)
    (hgood : ∀ s : IterState p, 0 < s.alpha → 0 < s.beta →
      0 < Matrix.dotProduct (trainStep c s).omega (trainStep c s).omega ∧
      0 < Matrix.dotProduct
        (fun j => c.t j - Matrix.vecMul (trainStep c s).omega c.phi j)
        (fun j => c.t j - Matrix.vecMul (trainStep c s).omega c.phi j) ∧
      (trainStep c s).gamma < n) :
    ∀ (fuel : ℕ) (crit : ℚ) (s : IterState p), 0 < s.alpha → 0 < s.beta →
      0 < (trainLoop c tol fuel crit s).alpha ∧
      0 < (trainLoop c tol fuel crit s).beta := by
  intro fuel
  induction fuel with
  | zero => exact fun crit s ha hb => ⟨ha, hb⟩
  | succ f ih =>
    intro crit s ha hb
    simp only [trainLoop]
    by_cases h : crit > tol
    · rw [if_pos h]
      obtain ⟨hw, hr, hg⟩ := hgood s ha hb
      obtain ⟨ha', hb'⟩ :=
        trainStep_preserves_pos c s hval hex ha hb hw hr hg
      exact ih _ _ ha' hb'
    · rw [if_neg h]
      exact ⟨ha, hb⟩

/-- Helper: conjugating a positive diagonal matrix by an orthogonal matrix
(whose inverse, as computed, is a genuine inverse) yields a symmetric
positive-definite matrix. -/
theorem orth_conj_posdef {p : ℕ} (V Vi : Matrix (Fin p) (Fin p) ℚ)
    (d : Fin p → ℚ) (horth : V.transpose * V = 1) (hVi : Vi * V = 1)
    (hd : ∀ i, 0 < d i) :
    (V * Matrix.diagonal d * Vi).IsSymm ∧
    (∀ x : Fin p → ℚ, x ≠ 0 →
      0 < Matrix.dotProduct x ((V * Matrix.diagonal d * Vi).mulVec x)) := by
  have hVVt : V * V.transpose = 1 := Matrix.mul_eq_one_comm.mp horth
  have hViT : Vi = V.transpose := by
    calc Vi = Vi * 1 := (Matrix.mul_one _).symm
    _ = Vi * (V * V.transpose) := by rw [hVVt]
    _ = (Vi * V) * V.transpose := by rw [Matrix.mul_assoc]
    _ = 1 * V.transpose := by rw [hVi]
    _ = V.transpose := Matrix.one_mul _
  subst hViT
  constructor
  · show (V * Matrix.diagonal d * V.transpose).transpose = _
    rw [Matrix.transpose_mul, Matrix.transpose_mul,
      Matrix.transpose_transpose, Matrix.diagonal_transpose,
      ← Matrix.mul_assoc]
  · intro x hx
    have h1 : (V * Matrix.diagonal d * V.transpose).mulVec x
        = V.mulVec ((Matrix.diagonal d).mulVec (V.transpose.mulVec x)) := by
      rw [Matrix.mulVec_mulVec, Matrix.mulVec_mulVec]
    have h2 : Matrix.dotProduct x
        (V.mulVec ((Matrix.diagonal d).mulVec (V.transpose.mulVec x)))
        = Matrix.dotProduct (V.transpose.mulVec x)
          ((Matrix.diagonal d).mulVec (V.transpose.mulVec x)) := by
      rw [Matrix.dotProduct_mulVec, ← Matrix.mulVec_transpose]
    have hy0 : V.transpose.mulVec x ≠ 0 := by
      intro h0
      apply hx
      have hxV : x = V.mulVec (V.transpose.mulVec x) := by
        rw [Matrix.mulVec_mulVec, hVVt, Matrix.one_mulVec]
      rw [hxV, h0, Matrix.mulVec_zero]
    obtain ⟨i0, hi0⟩ := Function.ne_iff.mp hy0
    have h3 : Matrix.dotProduct (V.transpose.mulVec x)
        ((Matrix.diagonal d).mulVec (V.transpose.mulVec x))
        = ∑ i, d i * (V.transpose.mulVec x i * V.transpose.mulVec x i) := by
      unfold Matrix.dotProduct
      refine Finset.sum_congr rfl fun i _ => ?_
      rw [Matrix.mulVec_diagonal]
      ring
    rw [h1, h2, h3]
    refine Finset.sum_pos'
      (fun i _ => mul_nonneg (hd i).le (mul_self_nonneg _))
      ⟨i0, Finset.mem_univ i0, mul_pos (hd i0) (mul_self_pos.mpr ?_)⟩
    simpa using hi0

/-- C9 (counterexample): training on the all-zero data set with responses
`(0, 2)` (a successful `Train`: the eigensolver succeeds — the fixture is
its exact decomposition, checked in the first conjunct — and an RMSE is
returned) produces `alpha = 0` (the model's value of the `0/0` the code
computes; IEEE arithmetic yields `nan` there, which is also not `> 0`) and a
zero posterior covariance entry, so `alpha > 0` and positive-definiteness
both fail after a successful `Train`. -/
theorem blrTrain_invariants_counterexample :
    fixC9Eig.eigVec * Matrix.diagonal fixC9Eig.eigVal *
      fixC9Eig.eigVec.transpose = fixC9Data * fixC9Data.transpose ∧
    (blrTrain id fixC9Est fixC9Data ![0, 2] fixC9Eig !![1]).2.isSome = true ∧
    (blrTrain id fixC9Est fixC9Data ![0, 2] fixC9Eig !![1]).1.alpha = 0 ∧
    ¬ (0 < (blrTrain id fixC9Est fixC9Data ![0, 2] fixC9Eig !![1]).1.alpha) ∧
    (blrTrain id fixC9Est fixC9Data ![0, 2] fixC9Eig !![1]).1.matCovariance
      0 0 = 0 := by
  have halpha : (blrTrain id fixC9Est fixC9Data ![0, 2] fixC9Eig
      !![1]).1.alpha = 0 := by
    norm_num [blrTrain, centerScaleData, rowMean, vecMean, blrBetaInit,
      vecVarPop, alphaInit, trainLoop, trainStep, critOf, eigVecInvPhitT,
      fixC9Est, fixC9Data, fixC9Eig, Matrix.mulVec, Matrix.vecMul,
      Matrix.dotProduct, Matrix.mul_apply, Matrix.diagonal, Fin.sum_univ_one,
      Fin.sum_univ_two]
  refine ⟨?_, by norm_num [blrTrain, fixC9Eig], halpha,
    by rw [halpha]; norm_num, ?_⟩
  · ext i j
    fin_cases i
    fin_cases j
    norm_num [fixC9Eig, fixC9Data, Matrix.mul_apply, Matrix.diagonal,
      Fin.sum_univ_one, Matrix.vecHead, Matrix.vecTail, Matrix.transpose]
  · norm_num [blrTrain, centerScaleData, rowMean, vecMean, blrBetaInit,
      vecVarPop, alphaInit, trainLoop, trainStep, critOf, eigVecInvPhitT,
      fixC9Est, fixC9Data, fixC9Eig, Matrix.mulVec, Matrix.vecMul,
      Matrix.dotProduct, Matrix.mul_apply, Matrix.diagonal, Fin.sum_univ_one,
      Fin.sum_univ_two]

/-- C9 (amended): under nondegeneracy conditions — nonnegative eigenvalues
with at least one positive, and every iteration reached from positive
hyperparameters having positive divisors `dot(omega, omega)`, `dot(r, r)`
and `gamma < n` — the evidence-maximization loop preserves `alpha > 0` and
`beta > 0` from its initialization, each iteration's `gamma` lies in
`[0, p]`, and the posterior covariance assembled after the loop from any
positive `alpha`, `beta` is symmetric positive-definite whenever the
eigenvector matrix is orthogonal and `eigVecInv` is its genuine inverse.
Without these conditions the invariants fail (see the counterexample). -/
theorem blr_posterior_invariants {p n : ℕ} (c : SpectralCache p n) (tol : ℚ)
    (hval : ∀ i, 0 ≤ c.eigVal i) (hex : ∃ i, 0 < c.eigVal i)
    (hgood : ∀ s : IterState p, 0 < s.alpha → 0 < s.beta →
      0 < Matrix.dotProduct (trainStep c s).omega (trainStep c s).omega ∧
      0 < Matrix.dotProduct
        (fun j => c.t j - Matrix.vecMul (trainStep c s).omega c.phi j)
        (fun j => c.t j - Matrix.vecMul (trainStep c s).omega c.phi j) ∧
      (trainStep c s).gamma < n) :
    (∀ (fuel : ℕ) (crit : ℚ) (s : IterState p), 0 < s.alpha → 0 < s.beta →
      0 < (trainLoop c tol fuel crit s).alpha ∧
      0 < (trainLoop c tol fuel crit s).beta) ∧
    (∀ s : IterState p, 0 < s.alpha → 0 < s.beta →
      0 ≤ (trainStep c s).gamma ∧ (trainStep c s).gamma ≤ p) ∧
    (∀ a b : ℚ, 0 < a → 0 < b →
      c.eigVec.transpose * c.eigVec = 1 → c.eigVecInv * c.eigVec = 1 →
      (c.eigVec * Matrix.diagonal (fun i => 1 / (b * c.eigVal i + a)) *
          c.eigVecInv).IsSymm ∧
      (∀ x : Fin p → ℚ, x ≠ 0 →
        0 < Matrix.dotProduct x ((c.eigVec * Matrix.diagonal
          (fun i => 1 / (b * c.eigVal i + a)) * c.eigVecInv).mulVec x))) := by
  refine ⟨trainLoop_preserves_pos c tol hval hex hgood,
    fun s ha hb => trainStep_gamma_bounds c s hval ha hb,
    fun a b hA hB horth hvi => ?_⟩
  have hd : ∀ i, 0 < 1 / (b * c.eigVal i + a) := fun i =>
    div_pos one_pos (add_pos_of_nonneg_of_pos (mul_nonneg hB.le (hval i)) hA)
  exact orth_conj_posdef c.eigVec c.eigVecInv _ horth hvi hd

/-- C9 (witness): the amended theorem applied to the nondegenerate concrete
cache `fixC9GoodCache`, whose hypotheses are discharged explicitly. -/
theorem blr_posterior_invariants_witness :
    (∀ i, 0 ≤ fixC9GoodCache.eigVal i) ∧
    (∃ i, 0 < fixC9GoodCache.eigVal i) ∧
    (∀ s : IterState 1, 0 < s.alpha → 0 < s.beta →
      0 < Matrix.dotProduct (trainStep fixC9GoodCache s).omega
        (trainStep fixC9GoodCache s).omega ∧
      0 < Matrix.dotProduct
        (fun j => fixC9GoodCache.t j - Matrix.vecMul
          (trainStep fixC9GoodCache s).omega fixC9GoodCache.phi j)
        (fun j => fixC9GoodCache.t j - Matrix.vecMul
          (trainStep fixC9GoodCache s).omega fixC9GoodCache.phi j) ∧
      (trainStep fixC9GoodCache s).gamma < 2) ∧
    ((∀ (fuel : ℕ) (crit : ℚ) (s : IterState 1),
        0 < s.alpha → 0 < s.beta →
        0 < (trainLoop fixC9GoodCache (1 / 1000) fuel crit s).alpha ∧
        0 < (trainLoop fixC9GoodCache (1 / 1000) fuel crit s).beta) ∧
     (∀ s : IterState 1, 0 < s.alpha → 0 < s.beta →
        0 ≤ (trainStep fixC9GoodCache s).gamma ∧
        (trainStep fixC9GoodCache s).gamma ≤ 1) ∧
     (∀ a b : ℚ, 0 < a → 0 < b →
        fixC9GoodCache.eigVec.transpose * fixC9GoodCache.eigVec = 1 →
        fixC9GoodCache.eigVecInv * fixC9GoodCache.eigVec = 1 →
        (fixC9GoodCache.eigVec * Matrix.diagonal
          (fun i => 1 / (b * fixC9GoodCache.eigVal i + a)) *
          fixC9GoodCache.eigVecInv).IsSymm ∧
        (∀ x : Fin 1 → ℚ, x ≠ 0 →
          0 < Matrix.dotProduct x ((fixC9GoodCache.eigVec * Matrix.diagonal
            (fun i => 1 / (b * fixC9GoodCache.eigVal i + a)) *
            fixC9GoodCache.eigVecInv).mulVec x)))) := by
  have h1 : ∀ i, 0 ≤ fixC9GoodCache.eigVal i := by
    intro i
    fin_cases i
    norm_num [fixC9GoodCache]
  have h2 : ∃ i, 0 < fixC9GoodCache.eigVal i :=
    ⟨0, by norm_num [fixC9GoodCache]⟩
  have h3 : ∀ s : IterState 1, 0 < s.alpha → 0 < s.beta →
      0 < Matrix.dotProduct (trainStep fixC9GoodCache s).omega
        (trainStep fixC9GoodCache s).omega ∧
      0 < Matrix.dotProduct
        (fun j => fixC9GoodCache.t j - Matrix.vecMul
          (trainStep fixC9GoodCache s).omega fixC9GoodCache.phi j)
        (fun j => fixC9GoodCache.t j - Matrix.vecMul
          (trainStep fixC9GoodCache s).omega fixC9GoodCache.phi j) ∧
      (trainStep fixC9GoodCache s).gamma < 2 := by
    intro s ha hb
    have hx : 0 < s.alpha / s.beta := div_pos ha hb
    have h2x : (0 : ℚ) < 2 + s.alpha / s.beta := by linarith
    have h2x' : (0 : ℚ) < s.alpha / s.beta + 2 := by linarith
    have hlt : (2 + s.alpha / s.beta)⁻¹ * 2 < 1 := by
      rw [inv_mul_eq_div, div_lt_one h2x]
      linarith
    refine ⟨?_, ?_, ?_⟩
    · simp [trainStep, fixC9GoodCache, eigVecInvPhitT, Matrix.mulVec,
        Matrix.vecMul, Matrix.dotProduct, Matrix.mul_apply, Matrix.diagonal,
        Matrix.vecHead, Fin.sum_univ_one, Fin.sum_univ_two]
      positivity
    · simp [trainStep, fixC9GoodCache, eigVecInvPhitT, Matrix.mulVec,
        Matrix.vecMul, Matrix.dotProduct, Matrix.mul_apply, Matrix.diagonal,
        Matrix.vecHead, Fin.sum_univ_one, Fin.sum_univ_two]
      nlinarith [hlt]
    · simp [trainStep, fixC9GoodCache, eigVecInvPhitT, Matrix.mulVec,
        Matrix.vecMul, Matrix.dotProduct, Matrix.mul_apply, Matrix.diagonal,
        Matrix.vecHead, Fin.sum_univ_one, Fin.sum_univ_two]
      rw [div_lt_iff₀ h2x']
      linarith
  exact ⟨h1, h2, h3,
    blr_posterior_invariants fixC9GoodCache (1 / 1000) h1 h2 h3⟩

end MlpackBLR
